import Mathlib

/-!
# Verification of the EasyScanlate text-annotation core

Shallow embedding of the algorithmic core of the EasyScanlate repository:

* `app/core/translations.py` — the translation exchange codec
  (`generate_for_translate_content`, `generate_retranslate_content`,
  `import_translation_file_content`);
* `app/core/profile_manager.py` — the `ProfileManager` profile store;
* `app/core/ocr_processor.py` — the coordinate-scaling and filtering
  stages of `OCRProcessor.run`.

Python dictionaries are modelled as insertion-ordered association lists
(lookup finds the first matching key; setting an existing key updates it
in place, setting a fresh key appends at the end), matching CPython dict
semantics including iteration order.  Python strings are modelled as
`String` or `List Char`; floating point numbers are modelled as `Rat`
(exact arithmetic stands in for IEEE floats).  Fallible Python code
(places where the source could raise) is modelled with `Option`.
-/

namespace EasyScanlate

/-! ## Insertion-ordered association lists (CPython dict model) -/

/-- Lookup in an association list: first binding for the key wins.
Models Python `d.get(k)` / `d[k]` for dicts, whose keys are unique. -/
def alookup {κ β : Type} [DecidableEq κ] : List (κ × β) → κ → Option β
  | [], _ => none
  | (k1, v) :: t, k => if k1 = k then some v else alookup t k

/-- Set a key in an association list: update in place when present,
append at the end when absent.  Models Python `d[k] = v`. -/
def aset {κ β : Type} [DecidableEq κ] : List (κ × β) → κ → β → List (κ × β)
  | [], k, v => [(k, v)]
  | (k1, v1) :: t, k, v => if k1 = k then (k, v) :: t else (k1, v1) :: aset t k v

/-- The key sequence of an association list (Python `list(d.keys())`). -/
def akeys {κ β : Type} (l : List (κ × β)) : List κ := l.map (·.1)

/-- Append a value to the list stored at a key, creating the key (at the
end) when absent.  Models the `if k not in d: d[k] = []` / `d[k].append(v)`
idiom used by the codec. -/
def appendAt {κ β : Type} [DecidableEq κ] (l : List (κ × List β)) (k : κ) (v : β) :
    List (κ × List β) :=
  aset l k ((alookup l k).getD [] ++ [v])

/-! ## Python string helpers -/

/-- Python whitespace for `str.strip` / `str.isspace` (ASCII part). -/
def pyIsSpace (c : Char) : Bool :=
  c = ' ' || c = '\t' || c = '\n' || c = '\r' || c = '\x0b' || c = '\x0c'

/-- Python `str.strip()` with no arguments. -/
def pyStrip (l : List Char) : List Char :=
  ((l.dropWhile pyIsSpace).reverse.dropWhile pyIsSpace).reverse

/-- Python `str.isspace()`: nonempty and all whitespace. -/
def pyIsSpaceStr (s : String) : Bool :=
  !s.data.isEmpty && s.data.all pyIsSpace

/-- Python `str(x)` for an optional string value: `str(None)` is the
four-character string `None`; a string is returned unchanged. -/
def pyStr (o : Option String) : String :=
  match o with
  | none => "None"
  | some s => s

/-- Python truthiness of an optional string: `None` and the empty string
are falsy, every other string is truthy. -/
def pyTruthy (o : Option String) : Bool :=
  match o with
  | none => false
  | some s => !s.isEmpty

/-- One character of `xml.sax.saxutils.escape` (which replaces the
ampersand first, then the angle brackets, equivalent to this
character-wise map). -/
def escapeChar (c : Char) : List Char :=
  if c = '&' then "&amp;".data
  else if c = '<' then "&lt;".data
  else if c = '>' then "&gt;".data
  else [c]

/-- `xml.sax.saxutils.escape` on a character list. -/
def escapeXml (l : List Char) : List Char :=
  l.foldr (fun c acc => escapeChar c ++ acc) []

/-- `xml.sax.saxutils.escape` on a string. -/
def escapeS (s : String) : String :=
  (escapeXml s.data).asString

/-- `xml.sax.saxutils.unescape` for the three default entities.  The
CPython implementation runs three sequential `str.replace` passes
(`&lt;`, then `&gt;`, then `&amp;`); since no replacement can create a
new occurrence of a later pattern, that is equivalent to this single
left-to-right scan. -/
def unescapeXml : List Char → List Char
  | [] => []
  | '&' :: 'a' :: 'm' :: 'p' :: ';' :: rest => '&' :: unescapeXml rest
  | '&' :: 'l' :: 't' :: ';' :: rest => '<' :: unescapeXml rest
  | '&' :: 'g' :: 't' :: ';' :: rest => '>' :: unescapeXml rest
  | c :: rest => c :: unescapeXml rest

/-- Value of a decimal digit character. -/
def digitVal (c : Char) : Nat := c.toNat - '0'.toNat

/-- Numeric value of a list of decimal digit characters. -/
def digitsToNat (ds : List Char) : Nat :=
  ds.foldl (fun a c => a * 10 + digitVal c) 0

/-- Python `float(s)` restricted to the grammar `\d+(\.\d+)?` that the
codec actually feeds it (row-number strings); any other input is `none`,
modelling the `ValueError` that `float` would raise.  Exact rational
arithmetic stands in for IEEE floats. -/
def pyFloatQ (s : List Char) : Option Rat :=
  let ds := s.takeWhile Char.isDigit
  if ds.isEmpty then none
  else
    match s.drop ds.length with
    | [] => some (digitsToNat ds : Nat)
    | '.' :: fpart =>
      let fs := fpart.takeWhile Char.isDigit
      if fs.isEmpty then none
      else if (fpart.drop fs.length).isEmpty then
        some ((digitsToNat ds : Rat) + (digitsToNat fs : Rat) / ((10 : Rat) ^ fs.length))
      else none
    | _ => none

/-- `float(res.get(..., 0))`: a missing value defaults to `0`. -/
def pyFloatField (o : Option String) : Option Rat :=
  match o with
  | none => some 0
  | some s => pyFloatQ s.data

/-- Stable insertion into a list sorted by a rational key (the new
element goes after existing elements with an equal key). -/
def insertByKey {α : Type} (key : α → Rat) (x : α) : List α → List α
  | [] => [x]
  | y :: ys => if key x < key y then x :: y :: ys else y :: insertByKey key x ys

/-- Stable sort by a rational key; extensionally equal to Python
`sorted(l, key=...)` (both are stable sorts by the same key). -/
def sortByKey {α : Type} (key : α → Rat) (l : List α) : List α :=
  l.foldl (fun acc x => insertByKey key x acc) []

/-- Split a character list at newline characters.  Python `splitlines`
additionally drops a trailing empty line and splits at bare `\r`; the
codec strips every line and skips empty ones, so the difference is
unobservable there. -/
def splitLinesAux (cur : List Char) : List Char → List (List Char)
  | [] => [cur.reverse]
  | c :: cs => if c = '\n' then cur.reverse :: splitLinesAux [] cs else splitLinesAux (c :: cur) cs

/-- All lines of a string (see `splitLinesAux`). -/
def pySplitLines (s : String) : List (List Char) :=
  splitLinesAux [] s.data

/-- Lowercase a character list (ASCII, matching `str.lower` on the
inputs the codec compares). -/
def lowerChars (l : List Char) : List Char := l.map Char.toLower

/-- Does `pat` occur in `l` (as a contiguous sublist)? -/
def containsSub (l pat : List Char) : Bool :=
  (List.range (l.length + 1)).any (fun i => pat.isPrefixOf (l.drop i))

/-- Index of the last occurrence of `pat` in `l`; Python `str.rfind`
(restricted to the found case; `none` models the `-1` result). -/
def rfindSub (l pat : List Char) : Option Nat :=
  ((List.range (l.length + 1)).filter (fun i => pat.isPrefixOf (l.drop i))).getLast?

/-- Number of (possibly overlapping) occurrences of `pat` in `l`;
used to count emitted tag blocks. -/
def countSub (l pat : List Char) : Nat :=
  ((List.range (l.length + 1)).filter (fun i => pat.isPrefixOf (l.drop i))).length

/-! ## Data model: OCR result rows (`translations.py`) -/

/-- One OCR result dictionary as consumed by the codec.  Optional fields
model `dict.get` returning `None` when the key is absent. -/
structure OcrResult where
  filename : Option String
  row_number : Option String
  text : String
  translations : List (String × String)
  is_deleted : Bool
deriving DecidableEq

/-- `_get_text_for_profile_static` from `translations.py`: for a
non-Original profile, the per-row `translations` entry wins when
present (even when empty); otherwise the raw `text`. -/
def get_text_for_profile_static (result : OcrResult) (profile_name : String) : String :=
  if profile_name ≠ "Original" then
    match alookup result.translations profile_name with
    | some edited => edited
    | none => result.text
  else result.text

/-! ## `generate_for_translate_content` -/

/-- Render one filename group of the full-document export. -/
def renderFileGroup (g : String × List (String × String)) : String :=
  "<" ++ escapeS g.1 ++ ">\n" ++
    String.join (g.2.map (fun tr => "<" ++ tr.2 ++ ">" ++ escapeS tr.1 ++ "</" ++ tr.2 ++ ">\n")) ++
    "</" ++ escapeS g.1 ++ ">\n"

/-- `generate_for_translate_content` from `translations.py`.  Returns
`none` when Python would raise, i.e. when some emitted row number is not
`float`-parseable (the `sorted(..., key=lambda x: float(x[1]))` call). -/
def generate_for_translate_content (ocr_results : List OcrResult)
    (source_profile_name : String) : Option String :=
  let visible := ocr_results.filter (fun r => !r.is_deleted)
  let grouped : List (String × List (String × String)) :=
    visible.foldl (fun acc r =>
      let text := get_text_for_profile_static r source_profile_name
      match r.filename with
      | none => acc
      | some fn =>
        if fn = "" || text = "" || r.row_number = none || pyIsSpaceStr text then acc
        else appendAt acc fn (text, pyStr r.row_number)) []
  (grouped.mapM (fun (g : String × List (String × String)) =>
      if g.2.all (fun tr => (pyFloatQ tr.2.data).isSome) then
        some (g.1, sortByKey (fun (tr : String × String) => (pyFloatQ tr.2.data).getD 0) g.2)
      else (none : Option (String × List (String × String))))).map
    (fun gs => "<translations>\n" ++ String.join (gs.map renderFileGroup) ++ "</translations>\n")

/-! ## `generate_retranslate_content` -/

/-- The proximity grouping loop of `generate_retranslate_content`:
`cur` is the group being built (nonempty, last element `lastIdx`). -/
def proximityGroupsAux (cs : Int) (cur : List Nat) (lastIdx : Nat) :
    List Nat → List (List Nat)
  | [] => [cur]
  | x :: xs =>
    if (x : Int) - cs ≤ (lastIdx : Int) + cs then
      proximityGroupsAux cs (cur ++ [x]) x xs
    else
      cur :: proximityGroupsAux cs [x] x xs

/-- Group sorted selected indices by overlapping context windows, as in
`generate_retranslate_content` (line 151-163 of `translations.py`). -/
def proximityGroups (cs : Int) : List Nat → List (List Nat)
  | [] => []
  | x :: xs => proximityGroupsAux cs [x] x xs

/-- Render one `<re-translation>` block for one index group. -/
def renderRetranslateGroup (source_profile_name : String) (file_results : List OcrResult)
    (cs : Int) (group : List Nat) : String :=
  let minIdx : Nat := ((group.headD 0 : Int) - cs).toNat
  let maxIdx : Int := min ((file_results.length : Int) - 1) ((group.getLastD 0 : Int) + cs)
  let window := (file_results.enum.drop minIdx).take (maxIdx + 1 - (minIdx : Int)).toNat
  "<re-translation>\n" ++
    String.join (window.map (fun p =>
      let text := get_text_for_profile_static p.2 source_profile_name
      let rn := pyStr p.2.row_number
      if group.contains p.1 then "<" ++ rn ++ ">" ++ escapeS text ++ "</" ++ rn ++ ">\n"
      else "<context>" ++ escapeS text ++ "</context>\n")) ++
    "</re-translation>\n"

/-- `generate_retranslate_content` from `translations.py`.  Returns
`none` when Python would raise while sorting a file bucket (a visible
row whose `row_number` does not `float`-parse). -/
def generate_retranslate_content (ocr_results : List OcrResult)
    (source_profile_name : String) (selected_items : List (String × String))
    (context_size : Int) : Option String :=
  if selected_items.isEmpty then some ""
  else
    let allByFile : List (Option String × List OcrResult) :=
      ocr_results.foldl (fun acc r => if r.is_deleted then acc else appendAt acc r.filename r) []
    (allByFile.mapM (fun (g : Option String × List OcrResult) =>
        if g.2.all (fun r => (pyFloatField r.row_number).isSome) then
          some (g.1, sortByKey (fun (r : OcrResult) => (pyFloatField r.row_number).getD 0) g.2)
        else (none : Option (Option String × List OcrResult)))).map
      (fun sortedByFile =>
        let selByFile : List (String × List String) :=
          selected_items.foldl (fun acc p => appendAt acc p.1 p.2) []
        selByFile.foldl (fun content (fg : String × List String) =>
          let file_results := (alookup sortedByFile (some fg.1)).getD []
          if file_results.isEmpty then content
          else
            let rowIdx : List (String × Nat) :=
              file_results.enum.foldl
                (fun acc (p : Nat × OcrResult) => aset acc (pyStr p.2.row_number) p.1) []
            let selIdx : List Nat := sortByKey (fun (n : Nat) => (n : Rat))
              (fg.2.filterMap (fun r => alookup rowIdx r))
            if selIdx.isEmpty then content
            else
              content ++ "<" ++ escapeS fg.1 ++ ">\n" ++
                String.join ((proximityGroups context_size selIdx).map
                  (renderRetranslateGroup source_profile_name file_results context_size)) ++
                "</" ++ escapeS fg.1 ++ ">\n") "")

/-! ## `import_translation_file_content` -/

/-- Match of the row-tag regex `<(?P<rownum>\d+(\.\d+)?)>` at the start
of a line: returns the captured row-number characters and the rest of
the line after the closing angle bracket. -/
def parseRowTag (line : List Char) : Option (List Char × List Char) :=
  match line with
  | '<' :: rest =>
    let ds := rest.takeWhile Char.isDigit
    if ds.isEmpty then none
    else
      match rest.drop ds.length with
      | '.' :: after2 =>
        let fs := after2.takeWhile Char.isDigit
        if fs.isEmpty then none
        else
          match after2.drop fs.length with
          | '>' :: tail => some (ds ++ '.' :: fs, tail)
          | _ => none
      | '>' :: tail => some (ds, tail)
      | _ => none
  | _ => none

/-- Match of the file-tag regex `<(?P<name>[^/][^>]+)>` at the start of
a line: a literal `<`, one character that is not `/`, then at least one
further character up to the next `>`. -/
def parseFileTag (line : List Char) : Option (List Char) :=
  match line with
  | '<' :: c :: rest =>
    if c = '/' then none
    else
      let run := rest.takeWhile (fun x => x ≠ '>')
      if run.isEmpty then none
      else
        match rest.drop run.length with
        | '>' :: _ => some (c :: run)
        | _ => none
  | _ => none

/-- The four structural tag names that are never treated as filenames. -/
def isReservedTag (nm : List Char) : Bool :=
  let l := (lowerChars nm).asString
  l = "translations" || l = "translate" || l = "context" || l = "re-translation"

/-- Parser state of `import_translation_file_content`: the accumulated
translations and the most recently seen filename. -/
structure ImportState where
  translations : List (String × List (String × String))
  current_filename : Option String
deriving DecidableEq

/-- The row branch of the import loop: extract the row content (up to
the last matching closing tag when present, else to end of line),
handle an inner `<translate>` tag, unescape, strip, and record when
nonempty.

The closing tag `</num>` cannot start inside the `<num>` prefix of the
line (every match needs `</` adjacent, and the prefix is `<` followed by
digits, an optional dot, and `>`), so searching the rest of the line is
the same as Python `line.rfind` over the whole line.

The content regex `<translate>(.*?)(?:</translate>)?` has a lazy group
followed by an optional tail, so the group always matches the empty
string; hence any row content containing `<translate>`
(case-insensitively) yields the empty extracted text and is dropped by
the nonempty check. -/
def importRowStep (st : ImportState) (cf : String) (rownum rest : List Char) : ImportState :=
  let closing := '<' :: '/' :: (rownum ++ ['>'])
  let line_content :=
    match rfindSub rest closing with
    | some j => rest.take j
    | none => rest
  let text := if containsSub (lowerChars line_content) "<translate>".data then [] else line_content
  let final := pyStrip (unescapeXml text)
  if final.isEmpty then st
  else
    let updated :=
      aset st.translations cf
        (aset ((alookup st.translations cf).getD []) rownum.asString final.asString)
    { st with translations := updated }

/-- The file branch of the import loop: a non-reserved opening tag
becomes the current filename and gets an (empty) entry when new. -/
def importFileStep (st : ImportState) (line : List Char) : ImportState :=
  match parseFileTag line with
  | none => st
  | some nm =>
    if isReservedTag nm then st
    else
      let cf := (unescapeXml nm).asString
      if (alookup st.translations cf).isSome then { st with current_filename := some cf }
      else { translations := st.translations ++ [(cf, [])], current_filename := some cf }

/-- One line of `import_translation_file_content`: strip, skip when
empty, try the row branch (which needs a truthy current filename), else
the file branch. -/
def importStep (st : ImportState) (rawLine : List Char) : ImportState :=
  let line := pyStrip rawLine
  if line.isEmpty then st
  else
    match parseRowTag line, st.current_filename with
    | some rt, some cf => if cf = "" then importFileStep st line else importRowStep st cf rt.1 rt.2
    | some _, none => importFileStep st line
    | none, _ => importFileStep st line

/-- `import_translation_file_content` from `translations.py`: a total,
line-oriented fold.  Always returns a dictionary. -/
def import_translation_file_content (content : String) :
    List (String × List (String × String)) :=
  ((pySplitLines content).foldl importStep ⟨[], none⟩).translations

/-! ## `ProfileManager` (`app/core/profile_manager.py`)

Profiles are a dict profile-name → (dict filename → (dict row-number-string
→ text)); the manager also tracks the active profile name.  Qt signal
emissions carry no state and are dropped from the embedding. -/

/-- Per-file row texts: row-number string → text. -/
abbrev FileRows := List (String × String)

/-- One profile: filename → rows. -/
abbrev ProfileData := List (String × FileRows)

/-- All profiles: profile name → data. -/
abbrev Profiles := List (String × ProfileData)

/-- The mutable state of a `ProfileManager`. -/
structure PMState where
  profiles : Profiles
  active_profile_name : String
deriving DecidableEq

/-- A row record of the main `ProjectModel`, as consumed by
`update_text` and `combine_rows` (only those two fields are read). -/
structure ModelRow where
  filename : Option String
  row_number : String
deriving DecidableEq

/-- Modelled from the spec: `ProjectModel._find_result_by_row_number` is
defined in the project-model module, which is not among the provided
sources; per the spec (section 4.2) `update_text` "resolves the row by
number to find its filename", and per section 7 operations referencing
an unknown row number find nothing.  We model the lookup as the first
model row carrying the requested row number, `none` when unknown. -/
def find_result_by_row_number (model : List ModelRow) (row_number : String) :
    Option ModelRow :=
  model.find? (fun r => r.row_number = row_number)

/-- One input row of `ProfileManager.load_from_results`.  Optional
fields model `dict.get` returning `None` for missing keys; `text`
defaults to the empty string as in the source `result.get` call. -/
structure LoadRow where
  filename : Option String
  row_number : Option String
  text : String
  translations : List (String × String)
deriving DecidableEq

/-- `ProfileManager.load_from_results`: rebuild all profiles from OCR
result rows.  Note the source computes the row key by applying `str` to
the possibly missing row number BEFORE the
`if not filename or not row_number: continue` guard, so a missing row
number becomes the truthy string `None` and is not skipped. -/
def load_from_results (ocr_results : List LoadRow) : PMState :=
  let profiles :=
    ocr_results.foldl (fun ps r =>
      let row_number := pyStr r.row_number
      match r.filename with
      | none => ps
      | some fn =>
        if fn = "" || row_number = "" then ps
        else
          let orig := (alookup ps "Original").getD []
          let ps1 := aset ps "Original"
            (aset orig fn (aset ((alookup orig fn).getD []) row_number r.text))
          r.translations.foldl (fun ps2 (pt : String × String) =>
            let pdata := (alookup ps2 pt.1).getD []
            aset ps2 pt.1
              (aset pdata fn (aset ((alookup pdata fn).getD []) row_number pt.2))) ps1)
      [("Original", ([] : ProfileData))]
  { profiles := profiles, active_profile_name := "Original" }

/-- Linear search for the first candidate index whose rendered name is
not taken.  `firstFreeUserEditIdx` and `uniqueProfileName` below prove
(in the theorems section) that within `keys.length + 1` candidates one
is always free, so this bounded search has the same semantics as the
unbounded `while` loops in the source. -/
def firstFree (ks : List String) (f : Nat → String) : List Nat → Option Nat
  | [] => none
  | i :: is => if f i ∈ ks then firstFree ks f is else some i

/-- The ascending candidate list `[start, start+1, ..., start+count-1]`. -/
def listFrom (start count : Nat) : List Nat :=
  match count with
  | 0 => []
  | c + 1 => start :: listFrom (start + 1) c

/-- The candidate name for the lazily forked edit profile. -/
def userEditName (i : Nat) : String := "User Edit " ++ toString i

/-- The while loop of `_ensure_user_edit_profile_exists` that counts
`i` up from 1 while the name `User Edit i` is taken: the least positive
index whose name is unused.  (The `getD` fallback is dead code: the
theorem `firstFreeUserEditIdx_spec` proves the bounded search always
succeeds.) -/
def firstFreeUserEditIdx (ks : List String) : Nat :=
  (firstFree ks userEditName (listFrom 1 (ks.length + 1))).getD (ks.length + 2)

/-- The name-collision loop of `add_profile`: `profile_name` itself
when free, else the base name with the least free counter appended in
parentheses. -/
def uniqueProfileName (ks : List String) (base : String) : String :=
  if base ∈ ks then
    match firstFree ks (fun i => base ++ " (" ++ toString i ++ ")") (listFrom 1 (ks.length + 1)) with
    | some i => base ++ " (" ++ toString i ++ ")"
    | none => base
  else base

/-- `ProfileManager.switch_active_profile`. -/
def switch_active_profile (s : PMState) (profile_name : String) : PMState :=
  if profile_name ∈ akeys s.profiles ∧ profile_name ≠ s.active_profile_name then
    { s with active_profile_name := profile_name }
  else s

/-- `ProfileManager._ensure_user_edit_profile_exists`: when the active
profile is Original, fork a fresh `User Edit i` deep copy of the
Original data, switch to it, and return its name; otherwise return the
active name unchanged.  (`self.profiles["Original"]` would raise a
`KeyError` when Original is absent; the embedding uses the empty
profile there — every claim is stated on states where Original is
present, as after `load_from_results`.) -/
def ensure_user_edit_profile_exists (s : PMState) : String × PMState :=
  if s.active_profile_name ≠ "Original" then (s.active_profile_name, s)
  else
    let nm := userEditName (firstFreeUserEditIdx (akeys s.profiles))
    let orig := (alookup s.profiles "Original").getD []
    let s1 := { s with profiles := aset s.profiles nm orig }
    (nm, switch_active_profile s1 nm)

/-- `ProfileManager.add_profile`: insert under a collision-free name;
the active profile is unchanged. -/
def add_profile (s : PMState) (profile_name : String) (data : ProfileData) : PMState :=
  { s with profiles := aset s.profiles (uniqueProfileName (akeys s.profiles) profile_name) data }

/-- `ProfileManager.update_text`: ensure an editable profile, resolve
the row through the model, and write the new text under the resolved
`(filename, row)` key — unless the row is unknown or its filename is
not a key of the target profile data (then only a warning is printed). -/
def update_text (model : List ModelRow) (s : PMState) (row_number : String)
    (new_text : String) : PMState :=
  let ts1 := ensure_user_edit_profile_exists s
  match find_result_by_row_number model row_number with
  | none => ts1.2
  | some r =>
    let row_str := r.row_number
    let pdata := (alookup ts1.2.profiles ts1.1).getD []
    match r.filename with
    | some fn =>
      match alookup pdata fn with
      | some rows =>
        { ts1.2 with profiles := aset ts1.2.profiles ts1.1 (aset pdata fn (aset rows row_str new_text)) }
      | none => ts1.2
    | none => ts1.2

/-- `ProfileManager.combine_rows`: textually the same update as
`update_text`, keyed by the first combined row. -/
def combine_rows (model : List ModelRow) (s : PMState) (first_row_number : String)
    (combined_text : String) : PMState :=
  let ts1 := ensure_user_edit_profile_exists s
  match find_result_by_row_number model first_row_number with
  | none => ts1.2
  | some r =>
    let row_str := r.row_number
    let pdata := (alookup ts1.2.profiles ts1.1).getD []
    match r.filename with
    | some fn =>
      match alookup pdata fn with
      | some rows =>
        { ts1.2 with profiles := aset ts1.2.profiles ts1.1 (aset pdata fn (aset rows row_str combined_text)) }
      | none => ts1.2
    | none => ts1.2

/-- `ProfileManager.get_display_text`: active-profile text for the
result row, falling back to Original, then to the empty string. -/
def get_display_text (s : PMState) (filename : Option String)
    (row_number : Option String) : String :=
  let rn := pyStr row_number
  let pdata := (alookup s.profiles s.active_profile_name).getD []
  let fromActive :=
    match filename with
    | some fn => (alookup pdata fn).bind (fun rows => alookup rows rn)
    | none => none
  match fromActive with
  | some t => t
  | none =>
    match filename with
    | some fn =>
      (((alookup s.profiles "Original").getD []
        |> (alookup · fn)).bind (fun rows => alookup rows rn)).getD ""
    | none => ""

/-- `ProfileManager.get_translations_for_save`: invert the non-Original
profiles into a `(filename, row)` → (profile → text) table. -/
def get_translations_for_save (s : PMState) :
    List ((String × String) × List (String × String)) :=
  s.profiles.foldl (fun acc (pp : String × ProfileData) =>
    if pp.1 = "Original" then acc
    else
      pp.2.foldl (fun acc2 (fr : String × FileRows) =>
        fr.2.foldl (fun acc3 (rt : String × String) =>
          let key := (fr.1, rt.1)
          aset acc3 key (aset ((alookup acc3 key).getD []) pp.1 rt.2)) acc2) acc) []

/-- Nested profile text lookup (absent levels read as empty dicts). -/
def profileText (ps : Profiles) (p fn rn : String) : Option String :=
  alookup ((alookup ((alookup ps p).getD []) fn).getD []) rn

/-- The `ProfileManager` operations named by the Original-immutability
claim.  `displayText` and `translationsForSave` are state readers
(embedded as pure functions); they are carried here so that the
invariant ranges over every listed operation. -/
inductive PMOp where
  | addProfile (name : String) (data : ProfileData)
  | switchActive (name : String)
  | updateText (row_number : String) (text : String)
  | combineRows (row_number : String) (text : String)
  | displayText (filename : Option String) (row_number : Option String)
  | translationsForSave

/-- Apply one operation to the state. -/
def PMOp.apply (model : List ModelRow) (s : PMState) : PMOp → PMState
  | .addProfile n d => add_profile s n d
  | .switchActive n => switch_active_profile s n
  | .updateText rn t => update_text model s rn t
  | .combineRows rn t => combine_rows model s rn t
  | .displayText fn rn => (fun _ => s) (get_display_text s fn rn)
  | .translationsForSave => (fun _ => s) (get_translations_for_save s)

/-- Apply a sequence of operations left to right. -/
def applyOps (model : List ModelRow) (s : PMState) (ops : List PMOp) : PMState :=
  ops.foldl (PMOp.apply model) s

/-! ## `OCRProcessor.run` — resize, coordinate rescaling, filtering
(`app/core/ocr_processor.py`)

Image contents, the EasyOCR reader and the merge step are external to
this core; the embedding covers the geometry pipeline from raw detector
output through the filtered results handed to merging: the resize
decision (step 2), coordinate scaling back to original space (step 4),
and height/confidence filtering (step 5).  Detector coordinates are
floats, modelled as `Rat`. -/

/-- One raw region from `reader.readtext`: polygon, text, confidence. -/
structure RawDetection where
  coordinates : List (Rat × Rat)
  text : String
  confidence : Rat
deriving DecidableEq

/-- One scaled result dict (`coordinates` now integer points). -/
structure ScaledResult where
  coordinates : List (Int × Int)
  text : String
  confidence : Rat
deriving DecidableEq

/-- Python `int(q)`: truncation toward zero. -/
def pyInt (q : Rat) : Int :=
  if q < 0 then -((-q).floor) else q.floor

/-- Step 2 of `OCRProcessor.run`: the resized dimensions and whether a
resize happened.  `resized_height = int(original_height * (resize_threshold
/ original_width))`, which over exact arithmetic is the floor division
`original_height * resize_threshold / original_width`. -/
def resizedDims (resize_threshold original_width original_height : Nat) :
    Nat × Nat × Bool :=
  if 0 < resize_threshold ∧ resize_threshold < original_width then
    (resize_threshold, original_height * resize_threshold / original_width, true)
  else (original_width, original_height, false)

/-- Step 4 (resized branch): scale every polygon point back to original
image space by `scale_x = original_width / resized_width` and
`scale_y = original_height / resized_height`, truncating to integers.
(The `TypeError`/`IndexError` skip for malformed coordinates cannot
fire on well-typed input.) -/
def scaleCoordinates (ow oh rw rh : Nat) (raw : List RawDetection) : List ScaledResult :=
  raw.map (fun r =>
    { coordinates := r.coordinates.map (fun p =>
        (pyInt (p.1 * ((ow : Rat) / (rw : Rat))), pyInt (p.2 * ((oh : Rat) / (rh : Rat))))),
      text := r.text, confidence := r.confidence })

/-- Step 4 (non-resized branch): truncate coordinates to integers. -/
def convertCoordinates (raw : List RawDetection) : List ScaledResult :=
  raw.map (fun r =>
    { coordinates := r.coordinates.map (fun p => (pyInt p.1, pyInt p.2)),
      text := r.text, confidence := r.confidence })

/-- Step 5 of `OCRProcessor.run`: drop results with no coordinates,
keep those whose bounding height lies within the bounds and whose
confidence reaches the minimum. -/
def filterResults (min_text_height max_text_height : Int) (min_confidence : Rat)
    (results : List ScaledResult) : List ScaledResult :=
  results.filter (fun r =>
    !r.coordinates.isEmpty &&
      (let ys := r.coordinates.map (·.2)
       let h := ys.foldl max (ys.headD 0) - ys.foldl min (ys.headD 0)
       decide (min_text_height ≤ h) && decide (h ≤ max_text_height) &&
         decide (min_confidence ≤ r.confidence)))

/-- Steps 2, 4 and 5 of `OCRProcessor.run` composed: resize decision,
coordinate scaling, then filtering of the scaled results. -/
def ocrPipelineFiltered (resize_threshold original_width original_height : Nat)
    (min_text_height max_text_height : Int) (min_confidence : Rat)
    (raw : List RawDetection) : List ScaledResult :=
  let dims := resizedDims resize_threshold original_width original_height
  let scaled :=
    if dims.2.2 then scaleCoordinates original_width original_height dims.1 dims.2.1 raw
    else convertCoordinates raw
  filterResults min_text_height max_text_height min_confidence scaled

/-- The mapping asserted by the spec for a resized detection: per-axis
scaling of each point by the inverse resize ratio,
`(int(x * original_width / resized_width), int(y * original_height / resized_height))`,
truncated to integers.  Written from the claim, to be compared with the
pipeline above. -/
def specScalePoint (ow oh rw rh : Nat) (p : Rat × Rat) : Int × Int :=
  (pyInt (p.1 * (ow : Rat) / (rw : Rat)), pyInt (p.2 * (oh : Rat) / (rh : Rat)))

/-- Big-endian decimal digits of a natural number, by well-founded
recursion; reference implementation used to reason about `Nat.repr`. -/
def decDigits (n : Nat) : List Char :=
  if _h : n < 10 then [Nat.digitChar n]
  else decDigits (n / 10) ++ [Nat.digitChar (n % 10)]
  termination_by n
  decreasing_by exact Nat.div_lt_self (by omega) (by omega)

/-!
# Theorems

Generic lemmas about the dict model and the name-search loops, followed
by one theorem (plus witness or counterexample) per specification claim.
-/

theorem alookup_aset_self {β : Type} (l : List (String × β)) (k : String) (v : β) :
    alookup (aset l k v) k = some v := by
  induction l with
  | nil => simp [aset, alookup]
  | cons hd t ih =>
    by_cases hk : hd.1 = k
    · simp [aset, hk, alookup]
    · simpa [aset, hk, alookup] using ih

theorem alookup_aset_ne {β : Type} (l : List (String × β)) (k k1 : String) (v : β)
    (h : k1 ≠ k) : alookup (aset l k v) k1 = alookup l k1 := by
  have hk1 : ¬k = k1 := fun hh => h hh.symm
  induction l with
  | nil => simp [aset, alookup, hk1]
  | cons hd t ih =>
    by_cases hk : hd.1 = k
    · simp [aset, hk, alookup, hk1]
    · simp only [aset, hk, if_false, alookup]
      by_cases h1 : hd.1 = k1 <;> simp [h1, ih]

theorem mem_akeys_aset {β : Type} (l : List (String × β)) (k a : String) (v : β) :
    a ∈ akeys (aset l k v) ↔ a ∈ akeys l ∨ a = k := by
  induction l with
  | nil => simp [aset, akeys]
  | cons hd t ih =>
    by_cases hk : hd.1 = k
    · subst hk; simp [aset, akeys]; tauto
    · simp only [aset, hk, if_false, akeys, List.map_cons, List.mem_cons] at *
      rw [ih]; tauto

theorem akeys_aset_mem {β : Type} (l : List (String × β)) (k : String) (v : β)
    (h : k ∈ akeys l) : akeys (aset l k v) = akeys l := by
  induction l with
  | nil => simp [akeys] at h
  | cons hd t ih =>
    by_cases hk : hd.1 = k
    · simp [aset, hk, akeys]
    · simp only [akeys, List.map_cons, List.mem_cons] at h
      rcases h with h1 | h1
      · exact absurd h1.symm hk
      · have ht := ih h1
        simp only [akeys] at ht
        simp [aset, hk, akeys, ht]

theorem akeys_aset_not_mem {β : Type} (l : List (String × β)) (k : String) (v : β)
    (h : k ∉ akeys l) : akeys (aset l k v) = akeys l ++ [k] := by
  induction l with
  | nil => simp [aset, akeys]
  | cons hd t ih =>
    simp only [akeys, List.map_cons, List.mem_cons] at h
    push_neg at h
    have hne : ¬hd.1 = k := fun hh => h.1 hh.symm
    have ht := ih h.2
    simp only [akeys] at ht
    simp [aset, hne, akeys, ht]

/-! ### Injectivity of the decimal rendering of naturals -/

theorem decDigits_small {n : Nat} (h : n < 10) : decDigits n = [Nat.digitChar n] := by
  rw [decDigits, dif_pos h]

theorem decDigits_large {n : Nat} (h : ¬n < 10) :
    decDigits n = decDigits (n / 10) ++ [Nat.digitChar (n % 10)] := by
  conv_lhs => rw [decDigits]
  rw [dif_neg h]

theorem toDigitsCore_eq_decDigits (fuel : Nat) :
    ∀ (n : Nat) (acc : List Char), n < fuel →
      Nat.toDigitsCore 10 fuel n acc = decDigits n ++ acc := by
  induction fuel with
  | zero => intro n acc h; omega
  | succ f ih =>
    intro n acc h
    rw [Nat.toDigitsCore]
    by_cases h10 : n / 10 = 0
    · have hn : n < 10 := by omega
      rw [if_pos h10, decDigits_small hn, Nat.mod_eq_of_lt hn]
      simp
    · have hn : ¬n < 10 := by
        intro hlt
        exact h10 (Nat.div_eq_of_lt hlt)
      have hdiv : n / 10 < f := by
        have h1 : n / 10 < n := Nat.div_lt_self (by omega) (by omega)
        omega
      rw [if_neg h10, ih (n / 10) _ hdiv, decDigits_large hn]
      simp

theorem repr_eq_decDigits (n : Nat) : Nat.repr n = (decDigits n).asString := by
  rw [Nat.repr, Nat.toDigits, toDigitsCore_eq_decDigits (n + 1) n [] (Nat.lt_succ_self n)]
  simp

theorem digitChar_inj_lt :
    ∀ a, a < 10 → ∀ b, b < 10 → Nat.digitChar a = Nat.digitChar b → a = b := by decide

theorem decDigits_ne_nil (n : Nat) : decDigits n ≠ [] := by
  by_cases h : n < 10
  · rw [decDigits_small h]; simp
  · rw [decDigits_large h]; simp

theorem decDigits_injective : Function.Injective decDigits := by
  intro m n h
  induction m using Nat.strong_induction_on generalizing n with
  | _ m ih =>
    by_cases hm : m < 10 <;> by_cases hn : n < 10
    · rw [decDigits_small hm, decDigits_small hn] at h
      injection h with h1 h2
      exact digitChar_inj_lt m hm n hn h1
    · exfalso
      have h1 := congrArg List.length h
      rw [decDigits_small hm, decDigits_large hn, List.length_append] at h1
      have hp : 0 < (decDigits (n / 10)).length :=
        List.length_pos.mpr (decDigits_ne_nil (n / 10))
      simp only [List.length_cons, List.length_nil] at h1
      omega
    · exfalso
      have h1 := congrArg List.length h
      rw [decDigits_large hm, decDigits_small hn, List.length_append] at h1
      have hp : 0 < (decDigits (m / 10)).length :=
        List.length_pos.mpr (decDigits_ne_nil (m / 10))
      simp only [List.length_cons, List.length_nil] at h1
      omega
    · rw [decDigits_large hm, decDigits_large hn] at h
      have hparts := List.append_inj' h (by simp)
      have hdiv : m / 10 = n / 10 :=
        ih (m / 10) (Nat.div_lt_self (by omega) (by omega)) hparts.1
      have hmod : m % 10 = n % 10 := by
        have h2 := hparts.2
        injection h2 with h3 h4
        exact digitChar_inj_lt _ (Nat.mod_lt m (by omega)) _ (Nat.mod_lt n (by omega)) h3
      omega

theorem natRepr_injective : Function.Injective Nat.repr := by
  intro m n h
  rw [repr_eq_decDigits, repr_eq_decDigits] at h
  have hd : decDigits m = decDigits n := by
    have := congrArg String.data h
    simpa [List.asString] using this
  exact decDigits_injective hd

theorem natToString_injective : Function.Injective (fun n : Nat => toString n) :=
  natRepr_injective

/-! ### The bounded name searches find a free name -/

theorem string_data_append (a b : String) : (a ++ b).data = a.data ++ b.data := rfl

theorem string_data_inj {a b : String} (h : a.data = b.data) : a = b := by
  cases a; cases b; exact congrArg String.mk h

theorem listFrom_length (start count : Nat) : (listFrom start count).length = count := by
  induction count generalizing start with
  | zero => simp [listFrom]
  | succ c ih => simp [listFrom, ih]

theorem mem_listFrom (start count i : Nat) :
    i ∈ listFrom start count ↔ start ≤ i ∧ i < start + count := by
  induction count generalizing start with
  | zero => simp [listFrom]
  | succ c ih =>
    simp only [listFrom, List.mem_cons, ih]
    omega

theorem listFrom_nodup (start count : Nat) : (listFrom start count).Nodup := by
  induction count generalizing start with
  | zero => simp [listFrom]
  | succ c ih =>
    simp only [listFrom, List.nodup_cons]
    refine ⟨?_, ih (start + 1)⟩
    rw [mem_listFrom]
    omega

theorem firstFree_none (ks : List String) (f : Nat → String) (cands : List Nat)
    (h : firstFree ks f cands = none) : ∀ i ∈ cands, f i ∈ ks := by
  induction cands with
  | nil => simp
  | cons c cs ih =>
    intro i hi
    by_cases hc : f c ∈ ks
    · rw [firstFree, if_pos hc] at h
      rcases List.mem_cons.mp hi with h1 | h1
      · subst h1; exact hc
      · exact ih h i h1
    · rw [firstFree, if_neg hc] at h
      exact absurd h (by simp)

theorem firstFree_some (ks : List String) (f : Nat → String) (cands : List Nat) (i : Nat)
    (h : firstFree ks f cands = some i) : f i ∉ ks ∧ i ∈ cands := by
  induction cands with
  | nil => simp [firstFree] at h
  | cons c cs ih =>
    by_cases hc : f c ∈ ks
    · rw [firstFree, if_pos hc] at h
      exact ⟨(ih h).1, List.mem_cons_of_mem c (ih h).2⟩
    · rw [firstFree, if_neg hc] at h
      have hci : c = i := by simpa using h
      subst hci
      exact ⟨hc, List.mem_cons_self c cs⟩

theorem firstFree_listFrom_min (ks : List String) (f : Nat → String)
    (start count i : Nat) (h : firstFree ks f (listFrom start count) = some i) :
    ∀ j, start ≤ j → j < i → f j ∈ ks := by
  induction count generalizing start with
  | zero => simp [listFrom, firstFree] at h
  | succ c ih =>
    rw [listFrom] at h
    by_cases hc : f start ∈ ks
    · rw [firstFree, if_pos hc] at h
      intro j hj hji
      by_cases hjs : j = start
      · subst hjs; exact hc
      · exact ih (start + 1) h j (by omega) hji
    · rw [firstFree, if_neg hc] at h
      have hci : start = i := by simpa using h
      subst hci
      intro j hj hji
      omega

theorem not_all_mem_of_injective (ks : List String) (cands : List Nat) (f : Nat → String)
    (hf : Function.Injective f) (hnd : cands.Nodup) (hlen : ks.length < cands.length) :
    ¬∀ i ∈ cands, f i ∈ ks := by
  intro hall
  have hnd2 : (cands.map f).Nodup := hnd.map hf
  have hsub : cands.map f ⊆ ks := by
    intro x hx
    obtain ⟨i, hi, rfl⟩ := List.mem_map.mp hx
    exact hall i hi
  have h1 : (cands.map f).toFinset.card = cands.length := by
    rw [List.toFinset_card_of_nodup hnd2, List.length_map]
  have h2 : (cands.map f).toFinset ⊆ ks.toFinset := by
    intro x hx
    rw [List.mem_toFinset] at hx ⊢
    exact hsub hx
  have h3 := Finset.card_le_card h2
  have h4 := List.toFinset_card_le ks
  omega

theorem userEditName_injective : Function.Injective userEditName := by
  intro a b h
  unfold userEditName at h
  have hd := congrArg String.data h
  rw [string_data_append, string_data_append] at hd
  have h2 := List.append_cancel_left hd
  exact natRepr_injective (string_data_inj h2)

theorem parenName_injective (base : String) :
    Function.Injective (fun i : Nat => base ++ " (" ++ toString i ++ ")") := by
  intro a b h
  simp only at h
  have hd := congrArg String.data h
  simp only [string_data_append] at hd
  rw [List.append_assoc, List.append_assoc, List.append_assoc, List.append_assoc] at hd
  have h2 := List.append_cancel_left (List.append_cancel_left hd)
  have h3 := List.append_cancel_right h2
  exact natRepr_injective (string_data_inj h3)

theorem firstFreeUserEditIdx_spec (ks : List String) :
    userEditName (firstFreeUserEditIdx ks) ∉ ks ∧ 0 < firstFreeUserEditIdx ks ∧
      ∀ j, 0 < j → j < firstFreeUserEditIdx ks → userEditName j ∈ ks := by
  have hne : firstFree ks userEditName (listFrom 1 (ks.length + 1)) ≠ none := by
    intro he
    exact not_all_mem_of_injective ks _ userEditName userEditName_injective
      (listFrom_nodup 1 _) (by rw [listFrom_length]; omega) (firstFree_none _ _ _ he)
  obtain ⟨i, hi⟩ := Option.ne_none_iff_exists'.mp hne
  have hspec := firstFree_some _ _ _ _ hi
  have hmin := firstFree_listFrom_min _ _ _ _ _ hi
  unfold firstFreeUserEditIdx
  rw [hi, Option.getD_some]
  refine ⟨hspec.1, ?_, ?_⟩
  · have hm := (mem_listFrom _ _ _).mp hspec.2
    omega
  · intro j hj hji
    exact hmin j (by omega) hji

theorem uniqueProfileName_not_mem (ks : List String) (base : String) :
    uniqueProfileName ks base ∉ ks := by
  unfold uniqueProfileName
  by_cases hb : base ∈ ks
  · have hne : firstFree ks (fun i => base ++ " (" ++ toString i ++ ")")
        (listFrom 1 (ks.length + 1)) ≠ none := by
      intro he
      exact not_all_mem_of_injective ks _ _ (parenName_injective base)
        (listFrom_nodup 1 _) (by rw [listFrom_length]; omega) (firstFree_none _ _ _ he)
    obtain ⟨i, hi⟩ := Option.ne_none_iff_exists'.mp hne
    have hspec := firstFree_some _ _ _ _ hi
    simp only [hb, if_true, hi]
    exact hspec.1
  · simp [hb]

/-! ### `ProfileManager` step lemmas -/

theorem userEditName_ne_original (i : Nat) : userEditName i ≠ "Original" := by
  intro h
  have hl := congrArg String.length h
  rw [userEditName, String.length_append] at hl
  have h10 : ("User Edit " : String).length = 10 := rfl
  have h8 : ("Original" : String).length = 8 := rfl
  omega

theorem combine_rows_eq_update_text (model : List ModelRow) (s : PMState) (a b : String) :
    combine_rows model s a b = update_text model s a b := rfl

theorem ensure_other (s : PMState) (h : s.active_profile_name ≠ "Original") :
    ensure_user_edit_profile_exists s = (s.active_profile_name, s) := by
  rw [ensure_user_edit_profile_exists, if_pos h]

theorem ensure_original (s : PMState) (h : s.active_profile_name = "Original") :
    ensure_user_edit_profile_exists s =
      (userEditName (firstFreeUserEditIdx (akeys s.profiles)),
        { profiles := aset s.profiles (userEditName (firstFreeUserEditIdx (akeys s.profiles)))
            ((alookup s.profiles "Original").getD []),
          active_profile_name := userEditName (firstFreeUserEditIdx (akeys s.profiles)) }) := by
  have hmem : userEditName (firstFreeUserEditIdx (akeys s.profiles)) ∈
      akeys (aset s.profiles (userEditName (firstFreeUserEditIdx (akeys s.profiles)))
        ((alookup s.profiles "Original").getD [])) :=
    (mem_akeys_aset _ _ _ _).mpr (Or.inr rfl)
  have hne := userEditName_ne_original (firstFreeUserEditIdx (akeys s.profiles))
  simp only [ensure_user_edit_profile_exists, switch_active_profile, h, ne_eq,
    not_true_eq_false, if_false, hmem, hne, not_false_eq_true, and_self, if_true]

theorem profileText_aset_other (ps : Profiles) (a p fn rw : String) (d : ProfileData)
    (h : p ≠ a) : profileText (aset ps a d) p fn rw = profileText ps p fn rw := by
  rw [profileText, profileText, alookup_aset_ne ps a p d h]

theorem profileText_write_untouched (ps : Profiles) (a fn1 rw1 t : String) (rows : FileRows)
    (hrows : alookup ((alookup ps a).getD []) fn1 = some rows) (p fn rw : String)
    (h : ¬(fn1 = fn ∧ rw1 = rw)) :
    profileText (aset ps a (aset ((alookup ps a).getD []) fn1 (aset rows rw1 t))) p fn rw =
      profileText ps p fn rw := by
  by_cases hp : p = a
  · subst hp
    rw [profileText, profileText, alookup_aset_self, Option.getD_some]
    by_cases hfn : fn = fn1
    · subst hfn
      have hrw : rw ≠ rw1 := fun hh => h ⟨rfl, hh.symm⟩
      rw [alookup_aset_self, Option.getD_some, alookup_aset_ne _ _ _ _ hrw, hrows,
        Option.getD_some]
    · rw [alookup_aset_ne _ _ _ _ hfn]
  · exact profileText_aset_other ps a p fn rw _ hp

theorem update_text_unknown (model : List ModelRow) (s : PMState) (rn t : String)
    (h : find_result_by_row_number model rn = none) :
    update_text model s rn t = (ensure_user_edit_profile_exists s).2 := by
  simp only [update_text, h]

theorem update_text_foreign (model : List ModelRow) (s : PMState) (rn t : String)
    (r : ModelRow) (hr : find_result_by_row_number model rn = some r)
    (hfn : ∀ fn, r.filename = some fn →
      alookup ((alookup (ensure_user_edit_profile_exists s).2.profiles
        (ensure_user_edit_profile_exists s).1).getD []) fn = none) :
    update_text model s rn t = (ensure_user_edit_profile_exists s).2 := by
  simp only [update_text, hr]
  cases hf : r.filename with
  | none => simp only [hf]
  | some fn => simp only [hf, hfn fn hf]

theorem update_text_alookup_original (model : List ModelRow) (s : PMState) (rn t : String) :
    alookup (update_text model s rn t).profiles "Original" = alookup s.profiles "Original" := by
  by_cases hact : s.active_profile_name = "Original"
  · have hne : ("Original" : String) ≠ userEditName (firstFreeUserEditIdx (akeys s.profiles)) :=
      fun hh => userEditName_ne_original _ hh.symm
    simp only [update_text, ensure_original s hact]
    cases hr : find_result_by_row_number model rn with
    | none => simp only [hr]; exact alookup_aset_ne _ _ _ _ hne
    | some r =>
      simp only [hr]
      cases hf : r.filename with
      | none => simp only [hf]; exact alookup_aset_ne _ _ _ _ hne
      | some fn =>
        simp only [hf]
        cases hrows : alookup ((alookup (aset s.profiles
            (userEditName (firstFreeUserEditIdx (akeys s.profiles)))
            ((alookup s.profiles "Original").getD []))
            (userEditName (firstFreeUserEditIdx (akeys s.profiles)))).getD []) fn with
        | none => simp only [hrows]; exact alookup_aset_ne _ _ _ _ hne
        | some rows =>
          simp only [hrows]
          rw [alookup_aset_ne _ _ _ _ hne]
          exact alookup_aset_ne _ _ _ _ hne
  · have hne : ("Original" : String) ≠ s.active_profile_name := fun hh => hact hh.symm
    simp only [update_text, ensure_other s hact]
    cases hr : find_result_by_row_number model rn with
    | none => simp only [hr]
    | some r =>
      simp only [hr]
      cases hf : r.filename with
      | none => simp only [hf]
      | some fn =>
        simp only [hf]
        cases hrows : alookup ((alookup s.profiles s.active_profile_name).getD []) fn with
        | none => simp only [hrows]
        | some rows => simp only [hrows]; exact alookup_aset_ne _ _ _ _ hne

theorem update_text_mem_akeys (model : List ModelRow) (s : PMState) (rn t : String)
    (x : String) (h : x ∈ akeys s.profiles) :
    x ∈ akeys (update_text model s rn t).profiles := by
  by_cases hact : s.active_profile_name = "Original"
  · simp only [update_text, ensure_original s hact]
    cases hr : find_result_by_row_number model rn with
    | none => simp only [hr]; exact (mem_akeys_aset _ _ _ _).mpr (Or.inl h)
    | some r =>
      simp only [hr]
      cases hf : r.filename with
      | none => simp only [hf]; exact (mem_akeys_aset _ _ _ _).mpr (Or.inl h)
      | some fn =>
        simp only [hf]
        cases hrows : alookup ((alookup (aset s.profiles
            (userEditName (firstFreeUserEditIdx (akeys s.profiles)))
            ((alookup s.profiles "Original").getD []))
            (userEditName (firstFreeUserEditIdx (akeys s.profiles)))).getD []) fn with
        | none => simp only [hrows]; exact (mem_akeys_aset _ _ _ _).mpr (Or.inl h)
        | some rows =>
          simp only [hrows]
          exact (mem_akeys_aset _ _ _ _).mpr (Or.inl ((mem_akeys_aset _ _ _ _).mpr (Or.inl h)))
  · simp only [update_text, ensure_other s hact]
    cases hr : find_result_by_row_number model rn with
    | none => simp only [hr]; exact h
    | some r =>
      simp only [hr]
      cases hf : r.filename with
      | none => simp only [hf]; exact h
      | some fn =>
        simp only [hf]
        cases hrows : alookup ((alookup s.profiles s.active_profile_name).getD []) fn with
        | none => simp only [hrows]; exact h
        | some rows => simp only [hrows]; exact (mem_akeys_aset _ _ _ _).mpr (Or.inl h)

theorem switch_profiles_eq (s : PMState) (n : String) :
    (switch_active_profile s n).profiles = s.profiles := by
  simp only [switch_active_profile]
  split <;> rfl

theorem update_write_cases (model : List ModelRow) (sA : PMState) (rn t : String)
    (r : ModelRow) (hact : sA.active_profile_name ≠ "Original")
    (hr : find_result_by_row_number model rn = some r) :
    update_text model sA rn t = sA ∨
    ∃ fn rows, r.filename = some fn ∧
      alookup ((alookup sA.profiles sA.active_profile_name).getD []) fn = some rows ∧
      update_text model sA rn t =
        (⟨aset sA.profiles sA.active_profile_name
            (aset ((alookup sA.profiles sA.active_profile_name).getD []) fn
              (aset rows r.row_number t)), sA.active_profile_name⟩ : PMState) := by
  cases hf : r.filename with
  | none =>
    refine Or.inl ?_
    simp only [update_text, ensure_other sA hact, hr, hf]
  | some fn =>
    cases hrows : alookup ((alookup sA.profiles sA.active_profile_name).getD []) fn with
    | none =>
      refine Or.inl ?_
      simp only [update_text, ensure_other sA hact, hr, hf, hrows]
    | some rows =>
      refine Or.inr ⟨fn, rows, rfl, hrows, ?_⟩
      simp only [update_text, ensure_other sA hact, hr, hf, hrows]

theorem update_text_active_eq (model : List ModelRow) (sA : PMState) (rn t : String)
    (hact : sA.active_profile_name ≠ "Original") :
    (update_text model sA rn t).active_profile_name = sA.active_profile_name := by
  simp only [update_text, ensure_other sA hact]
  cases hr : find_result_by_row_number model rn with
  | none => simp only [hr]
  | some r =>
    simp only [hr]
    cases hf : r.filename with
    | none => simp only [hf]
    | some fn =>
      simp only [hf]
      cases hrows : alookup ((alookup sA.profiles sA.active_profile_name).getD []) fn with
      | none => simp only [hrows]
      | some rows => simp only [hrows]

theorem update_text_akeys_eq (model : List ModelRow) (sA : PMState) (rn t : String)
    (hact : sA.active_profile_name ≠ "Original")
    (hmem : sA.active_profile_name ∈ akeys sA.profiles) :
    akeys (update_text model sA rn t).profiles = akeys sA.profiles := by
  simp only [update_text, ensure_other sA hact]
  cases hr : find_result_by_row_number model rn with
  | none => simp only [hr]
  | some r =>
    simp only [hr]
    cases hf : r.filename with
    | none => simp only [hf]
    | some fn =>
      simp only [hf]
      cases hrows : alookup ((alookup sA.profiles sA.active_profile_name).getD []) fn with
      | none => simp only [hrows]
      | some rows => simp only [hrows]; exact akeys_aset_mem _ _ _ hmem

theorem update_text_profileText_untouched (model : List ModelRow) (sA : PMState)
    (rn t : String) (r : ModelRow) (hact : sA.active_profile_name ≠ "Original")
    (hr : find_result_by_row_number model rn = some r) (p fn rw : String)
    (huntouched : ¬(r.filename = some fn ∧ r.row_number = rw)) :
    profileText (update_text model sA rn t).profiles p fn rw =
      profileText sA.profiles p fn rw := by
  rcases update_write_cases model sA rn t r hact hr with hcase | ⟨fn1, rows, hf, hrows, hcase⟩
  · rw [hcase]
  · rw [hcase]
    exact profileText_write_untouched sA.profiles sA.active_profile_name fn1 r.row_number t
      rows hrows p fn rw
      (fun hh => huntouched ⟨by rw [hf, hh.1], hh.2⟩)

/-- C4 (counterexample): a call referencing an unknown row number is not
always a state no-op — when the active profile is Original, the call
still forks a `User Edit 1` profile and switches to it, changing the
`ProfileManager` state. -/
theorem unknown_row_forks_c4_cex :
    update_text [] (⟨[("Original", [("a.png", [("1", "x")])])], "Original"⟩ : PMState) "9" "t" ≠
      (⟨[("Original", [("a.png", [("1", "x")])])], "Original"⟩ : PMState) := by decide

/-- C4 (amended): a call to `update_text` or `combine_rows` whose row
number the model cannot resolve writes no text and raises nothing, and
the resulting state is exactly the state after the fork step of
`_ensure_user_edit_profile_exists`: unchanged whenever the active
profile is not Original, and with only the freshly forked profile (and
the active-profile switch to it) when the active profile is Original. -/
theorem unknown_row_noop_c4 (model : List ModelRow) (s : PMState) (rn t1 t2 : String)
    (h : find_result_by_row_number model rn = none) :
    update_text model s rn t1 = (ensure_user_edit_profile_exists s).2 ∧
    combine_rows model s rn t2 = (ensure_user_edit_profile_exists s).2 ∧
    (s.active_profile_name ≠ "Original" →
      update_text model s rn t1 = s ∧ combine_rows model s rn t2 = s) := by
  refine ⟨update_text_unknown model s rn t1 h, ?_, ?_⟩
  · rw [combine_rows_eq_update_text]
    exact update_text_unknown model s rn t2 h
  · intro hne
    rw [combine_rows_eq_update_text, update_text_unknown model s rn t1 h,
      update_text_unknown model s rn t2 h, ensure_other s hne]
    exact ⟨rfl, rfl⟩

/-- C4 (witness): the amended statement applied to a concrete state
with a non-Original active profile and an empty model. -/
theorem unknown_row_noop_c4_witness :
    find_result_by_row_number [] "9" = none ∧
    (update_text [] (⟨[("Original", [("a.png", [("1", "x")])]),
        ("T", [("a.png", [("1", "tx")])])], "T"⟩ : PMState) "9" "t1" =
      (ensure_user_edit_profile_exists (⟨[("Original", [("a.png", [("1", "x")])]),
        ("T", [("a.png", [("1", "tx")])])], "T"⟩ : PMState)).2 ∧
    combine_rows [] (⟨[("Original", [("a.png", [("1", "x")])]),
        ("T", [("a.png", [("1", "tx")])])], "T"⟩ : PMState) "9" "t2" =
      (ensure_user_edit_profile_exists (⟨[("Original", [("a.png", [("1", "x")])]),
        ("T", [("a.png", [("1", "tx")])])], "T"⟩ : PMState)).2 ∧
    ((⟨[("Original", [("a.png", [("1", "x")])]),
        ("T", [("a.png", [("1", "tx")])])], "T"⟩ : PMState).active_profile_name ≠ "Original" →
      update_text [] (⟨[("Original", [("a.png", [("1", "x")])]),
          ("T", [("a.png", [("1", "tx")])])], "T"⟩ : PMState) "9" "t1" =
        (⟨[("Original", [("a.png", [("1", "x")])]),
          ("T", [("a.png", [("1", "tx")])])], "T"⟩ : PMState) ∧
      combine_rows [] (⟨[("Original", [("a.png", [("1", "x")])]),
          ("T", [("a.png", [("1", "tx")])])], "T"⟩ : PMState) "9" "t2" =
        (⟨[("Original", [("a.png", [("1", "x")])]),
          ("T", [("a.png", [("1", "tx")])])], "T"⟩ : PMState))) :=
  ⟨by decide, unknown_row_noop_c4 [] _ "9" "t1" "t2" (by decide)⟩

/-- C10: when the row resolves but its filename is not a key of the
target (active or freshly forked) profile data, `update_text` and
`combine_rows` write nothing: the state is exactly the post-fork state,
the new text being discarded with only a warning. -/
theorem foreign_filename_dropped_c10 (model : List ModelRow) (s : PMState)
    (rn t1 t2 : String) (r : ModelRow)
    (hr : find_result_by_row_number model rn = some r)
    (hfn : ∀ fn, r.filename = some fn →
      alookup ((alookup (ensure_user_edit_profile_exists s).2.profiles
        (ensure_user_edit_profile_exists s).1).getD []) fn = none) :
    update_text model s rn t1 = (ensure_user_edit_profile_exists s).2 ∧
    combine_rows model s rn t2 = (ensure_user_edit_profile_exists s).2 := by
  refine ⟨update_text_foreign model s rn t1 r hr hfn, ?_⟩
  rw [combine_rows_eq_update_text]
  exact update_text_foreign model s rn t2 r hr hfn

/-- C10 (witness): a model row living in `other.png`, absent from the
target profile data, at a state with active profile Original. -/
theorem foreign_filename_dropped_c10_witness :
    find_result_by_row_number [(⟨some "other.png", "1"⟩ : ModelRow)] "1" =
      some (⟨some "other.png", "1"⟩ : ModelRow) ∧
    (update_text [(⟨some "other.png", "1"⟩ : ModelRow)]
        (⟨[("Original", [("a.png", [("1", "x")])])], "Original"⟩ : PMState) "1" "t1" =
      (ensure_user_edit_profile_exists
        (⟨[("Original", [("a.png", [("1", "x")])])], "Original"⟩ : PMState)).2 ∧
    combine_rows [(⟨some "other.png", "1"⟩ : ModelRow)]
        (⟨[("Original", [("a.png", [("1", "x")])])], "Original"⟩ : PMState) "1" "t2" =
      (ensure_user_edit_profile_exists
        (⟨[("Original", [("a.png", [("1", "x")])])], "Original"⟩ : PMState)).2) :=
  ⟨by decide, foreign_filename_dropped_c10 [(⟨some "other.png", "1"⟩ : ModelRow)]
    (⟨[("Original", [("a.png", [("1", "x")])])], "Original"⟩ : PMState) "1" "t1" "t2"
    (⟨some "other.png", "1"⟩ : ModelRow) (by decide)
    (by intro fn hfn; cases hfn; decide)⟩

theorem apply_alookup_original (model : List ModelRow) (op : PMOp) (s : PMState)
    (h : "Original" ∈ akeys s.profiles) :
    alookup (PMOp.apply model s op).profiles "Original" = alookup s.profiles "Original" := by
  cases op with
  | addProfile n d =>
    have hfresh := uniqueProfileName_not_mem (akeys s.profiles) n
    have hne : ("Original" : String) ≠ uniqueProfileName (akeys s.profiles) n :=
      fun hh => hfresh (hh ▸ h)
    simp only [PMOp.apply, add_profile]
    exact alookup_aset_ne _ _ _ _ hne
  | switchActive n => simp only [PMOp.apply]; rw [switch_profiles_eq]
  | updateText rn t => exact update_text_alookup_original model s rn t
  | combineRows rn t =>
    simp only [PMOp.apply]
    rw [combine_rows_eq_update_text]
    exact update_text_alookup_original model s rn t
  | displayText fn rn => rfl
  | translationsForSave => rfl

theorem apply_mem_original (model : List ModelRow) (op : PMOp) (s : PMState)
    (h : "Original" ∈ akeys s.profiles) :
    "Original" ∈ akeys (PMOp.apply model s op).profiles := by
  cases op with
  | addProfile n d =>
    simp only [PMOp.apply, add_profile]
    exact (mem_akeys_aset _ _ _ _).mpr (Or.inl h)
  | switchActive n => simp only [PMOp.apply]; rw [switch_profiles_eq]; exact h
  | updateText rn t => exact update_text_mem_akeys model s rn t _ h
  | combineRows rn t =>
    simp only [PMOp.apply]
    rw [combine_rows_eq_update_text]
    exact update_text_mem_akeys model s rn t _ h
  | displayText fn rn => exact h
  | translationsForSave => exact h

/-- C8: after loading, no sequence of `ProfileManager` operations
(`add_profile`, `switch_active_profile`, `update_text`, `combine_rows`,
and the readers `get_display_text`, `get_translations_for_save`) ever
changes the data stored under the Original profile: edits always land
in a non-Original profile, the lazy fork writes a (deep) copy under a
fresh `User Edit` name, and `add_profile` renames away from every
existing key. -/
theorem original_immutable_c8 (model : List ModelRow) (ops : List PMOp) (s : PMState)
    (h : "Original" ∈ akeys s.profiles) :
    alookup (applyOps model s ops).profiles "Original" = alookup s.profiles "Original" := by
  induction ops generalizing s with
  | nil => rfl
  | cons op rest ih =>
    calc alookup (applyOps model (PMOp.apply model s op) rest).profiles "Original"
        = alookup (PMOp.apply model s op).profiles "Original" :=
          ih (PMOp.apply model s op) (apply_mem_original model op s h)
      _ = alookup s.profiles "Original" := apply_alookup_original model op s h

/-- C8 (witness): a concrete operation sequence exercising every
operation kind, starting from a loaded state. -/
theorem original_immutable_c8_witness :
    "Original" ∈ akeys (⟨[("Original", [("a.png", [("1", "x"), ("2", "y")])])],
        "Original"⟩ : PMState).profiles ∧
    alookup (applyOps [(⟨some "a.png", "1"⟩ : ModelRow)]
        (⟨[("Original", [("a.png", [("1", "x"), ("2", "y")])])], "Original"⟩ : PMState)
        [PMOp.updateText "1" "edit one", PMOp.addProfile "Original" [],
         PMOp.switchActive "Original", PMOp.combineRows "1" "combined",
         PMOp.displayText (some "a.png") (some "1"), PMOp.translationsForSave]).profiles
        "Original" =
      alookup (⟨[("Original", [("a.png", [("1", "x"), ("2", "y")])])],
        "Original"⟩ : PMState).profiles "Original" :=
  ⟨by decide, original_immutable_c8 _ _ _ (by decide)⟩

/-- C3: starting from active profile Original, two consecutive
`update_text` calls on model-resolvable rows create exactly one new
profile: it is named `User Edit i` for the least free positive `i`
(every smaller suffix is taken), it is appended as the single new
profile key, it becomes (and stays) the active profile, and every
`(filename, row)` key not touched by either edit reads the same text in
it as in the Original profile. -/
theorem fork_once_c3 (model : List ModelRow) (s : PMState) (rn1 t1 rn2 t2 : String)
    (r1 r2 : ModelRow)
    (hact : s.active_profile_name = "Original")
    (h1 : find_result_by_row_number model rn1 = some r1)
    (h2 : find_result_by_row_number model rn2 = some r2) :
    (update_text model (update_text model s rn1 t1) rn2 t2).active_profile_name =
        userEditName (firstFreeUserEditIdx (akeys s.profiles)) ∧
    userEditName (firstFreeUserEditIdx (akeys s.profiles)) ∉ akeys s.profiles ∧
    (∀ j, 0 < j → j < firstFreeUserEditIdx (akeys s.profiles) →
      userEditName j ∈ akeys s.profiles) ∧
    akeys (update_text model (update_text model s rn1 t1) rn2 t2).profiles =
        akeys s.profiles ++ [userEditName (firstFreeUserEditIdx (akeys s.profiles))] ∧
    (∀ fn rw, ¬(r1.filename = some fn ∧ r1.row_number = rw) →
      ¬(r2.filename = some fn ∧ r2.row_number = rw) →
      profileText (update_text model (update_text model s rn1 t1) rn2 t2).profiles
          (userEditName (firstFreeUserEditIdx (akeys s.profiles))) fn rw =
        profileText s.profiles "Original" fn rw) := by
  obtain ⟨hfresh, hpos, hmin⟩ := firstFreeUserEditIdx_spec (akeys s.profiles)
  set nm := userEditName (firstFreeUserEditIdx (akeys s.profiles)) with hnm
  set orig := (alookup s.profiles "Original").getD [] with horig
  set sF : PMState := ⟨aset s.profiles nm orig, nm⟩ with hsF
  have hens2 : ensure_user_edit_profile_exists s = (nm, sF) := ensure_original s hact
  have hneF : sF.active_profile_name ≠ "Original" := userEditName_ne_original _
  have hmemF : sF.active_profile_name ∈ akeys sF.profiles :=
    (mem_akeys_aset _ _ _ _).mpr (Or.inr rfl)
  have hkeysF : akeys sF.profiles = akeys s.profiles ++ [nm] :=
    akeys_aset_not_mem _ _ _ hfresh
  have hs1eq : update_text model s rn1 t1 = update_text model sF rn1 t1 := by
    simp only [update_text, hens2, ensure_other sF hneF]
  have h1active : (update_text model sF rn1 t1).active_profile_name = nm :=
    update_text_active_eq model sF rn1 t1 hneF
  have h1keys : akeys (update_text model sF rn1 t1).profiles = akeys sF.profiles :=
    update_text_akeys_eq model sF rn1 t1 hneF hmemF
  have hneS1 : (update_text model sF rn1 t1).active_profile_name ≠ "Original" := by
    rw [h1active]; exact userEditName_ne_original _
  have hmemS1 : (update_text model sF rn1 t1).active_profile_name ∈
      akeys (update_text model sF rn1 t1).profiles := by
    rw [h1active, h1keys, hkeysF]
    exact List.mem_append_right _ (List.mem_singleton_self nm)
  have h2active : (update_text model (update_text model sF rn1 t1) rn2 t2).active_profile_name
      = nm := by
    rw [update_text_active_eq model _ rn2 t2 hneS1, h1active]
  have h2keys : akeys (update_text model (update_text model sF rn1 t1) rn2 t2).profiles =
      akeys s.profiles ++ [nm] := by
    rw [update_text_akeys_eq model _ rn2 t2 hneS1 hmemS1, h1keys, hkeysF]
  have hbase : ∀ fn rw, profileText sF.profiles nm fn rw =
      profileText s.profiles "Original" fn rw := by
    intro fn rw
    rw [profileText, profileText]
    show alookup ((alookup ((alookup (aset s.profiles nm orig) nm).getD []) fn).getD []) rw = _
    rw [alookup_aset_self, Option.getD_some, horig]
  rw [hs1eq]
  refine ⟨h2active, hfresh, hmin, h2keys, ?_⟩
  intro fn rw hu1 hu2
  have hstep2 := update_text_profileText_untouched model (update_text model sF rn1 t1)
    rn2 t2 r2 hneS1 h2 nm fn rw hu2
  have hstep1 := update_text_profileText_untouched model sF rn1 t1 r1 hneF h1 nm fn rw hu1
  rw [hstep2, hstep1, hbase]

/-- C3 (witness): two concrete edits from a freshly loaded
single-profile state; the fork lands in `User Edit 1`. -/
theorem fork_once_c3_witness :
    (⟨[("Original", [("a.png", [("1", "x"), ("2", "y")])])],
        "Original"⟩ : PMState).active_profile_name = "Original" ∧
    find_result_by_row_number [(⟨some "a.png", "1"⟩ : ModelRow),
        (⟨some "a.png", "2"⟩ : ModelRow)] "1" = some (⟨some "a.png", "1"⟩ : ModelRow) ∧
    find_result_by_row_number [(⟨some "a.png", "1"⟩ : ModelRow),
        (⟨some "a.png", "2"⟩ : ModelRow)] "2" = some (⟨some "a.png", "2"⟩ : ModelRow) ∧
    ((update_text [(⟨some "a.png", "1"⟩ : ModelRow), (⟨some "a.png", "2"⟩ : ModelRow)]
        (update_text [(⟨some "a.png", "1"⟩ : ModelRow), (⟨some "a.png", "2"⟩ : ModelRow)]
          (⟨[("Original", [("a.png", [("1", "x"), ("2", "y")])])], "Original"⟩ : PMState)
          "1" "e1") "2" "e2").active_profile_name =
      userEditName (firstFreeUserEditIdx (akeys (⟨[("Original",
        [("a.png", [("1", "x"), ("2", "y")])])], "Original"⟩ : PMState).profiles)) ∧
    userEditName (firstFreeUserEditIdx (akeys (⟨[("Original",
        [("a.png", [("1", "x"), ("2", "y")])])], "Original"⟩ : PMState).profiles)) ∉
      akeys (⟨[("Original", [("a.png", [("1", "x"), ("2", "y")])])],
        "Original"⟩ : PMState).profiles ∧
    (∀ j, 0 < j → j < firstFreeUserEditIdx (akeys (⟨[("Original",
        [("a.png", [("1", "x"), ("2", "y")])])], "Original"⟩ : PMState).profiles) →
      userEditName j ∈ akeys (⟨[("Original", [("a.png", [("1", "x"), ("2", "y")])])],
        "Original"⟩ : PMState).profiles) ∧
    akeys (update_text [(⟨some "a.png", "1"⟩ : ModelRow), (⟨some "a.png", "2"⟩ : ModelRow)]
        (update_text [(⟨some "a.png", "1"⟩ : ModelRow), (⟨some "a.png", "2"⟩ : ModelRow)]
          (⟨[("Original", [("a.png", [("1", "x"), ("2", "y")])])], "Original"⟩ : PMState)
          "1" "e1") "2" "e2").profiles =
      akeys (⟨[("Original", [("a.png", [("1", "x"), ("2", "y")])])],
        "Original"⟩ : PMState).profiles ++
        [userEditName (firstFreeUserEditIdx (akeys (⟨[("Original",
          [("a.png", [("1", "x"), ("2", "y")])])], "Original"⟩ : PMState).profiles))] ∧
    (∀ fn rw, ¬((⟨some "a.png", "1"⟩ : ModelRow).filename = some fn ∧
        (⟨some "a.png", "1"⟩ : ModelRow).row_number = rw) →
      ¬((⟨some "a.png", "2"⟩ : ModelRow).filename = some fn ∧
        (⟨some "a.png", "2"⟩ : ModelRow).row_number = rw) →
      profileText (update_text [(⟨some "a.png", "1"⟩ : ModelRow),
          (⟨some "a.png", "2"⟩ : ModelRow)]
          (update_text [(⟨some "a.png", "1"⟩ : ModelRow), (⟨some "a.png", "2"⟩ : ModelRow)]
            (⟨[("Original", [("a.png", [("1", "x"), ("2", "y")])])], "Original"⟩ : PMState)
            "1" "e1") "2" "e2").profiles
          (userEditName (firstFreeUserEditIdx (akeys (⟨[("Original",
            [("a.png", [("1", "x"), ("2", "y")])])], "Original"⟩ : PMState).profiles)))
          fn rw =
        profileText (⟨[("Original", [("a.png", [("1", "x"), ("2", "y")])])],
          "Original"⟩ : PMState).profiles "Original" fn rw)) :=
  ⟨rfl, by decide, by decide,
    fork_once_c3 [(⟨some "a.png", "1"⟩ : ModelRow), (⟨some "a.png", "2"⟩ : ModelRow)]
      (⟨[("Original", [("a.png", [("1", "x"), ("2", "y")])])], "Original"⟩ : PMState)
      "1" "e1" "2" "e2" (⟨some "a.png", "1"⟩ : ModelRow) (⟨some "a.png", "2"⟩ : ModelRow)
      rfl (by decide) (by decide)⟩

/-! ### Codec claims -/

theorem importFileStep_reserved (st : ImportState) (line : List Char)
    (h : ∀ nm, parseFileTag line = some nm → isReservedTag nm = true) :
    importFileStep st line = st := by
  cases e : parseFileTag line with
  | none => simp [importFileStep, e]
  | some nm => simp [importFileStep, e, h nm e]

/-- C6: `import_translation_file_content` is a total fold over the
input lines (the embedding returns a dictionary on every input string —
the Python parser has no raising path), and any line that is neither a
row tag usable in the current state (a numeric tag with a truthy
current filename) nor a non-reserved file tag leaves the parser state
untouched; this covers stray closing tags, the reserved wrapper tags
`translations`, `translate`, `context` and `re-translation`, and blank
lines. -/
theorem import_skips_unrecognized_c6 (st : ImportState) (line : List Char)
    (hrow : parseRowTag (pyStrip line) = none ∨ st.current_filename = none ∨
      st.current_filename = some "")
    (hfile : ∀ nm, parseFileTag (pyStrip line) = some nm → isReservedTag nm = true) :
    importStep st line = st := by
  by_cases he : (pyStrip line).isEmpty
  · simp [importStep, he]
  · have hfs := importFileStep_reserved st (pyStrip line) hfile
    rcases hrow with hr | hc | hc
    · cases hcf : st.current_filename <;> simp [importStep, he, hr, hcf, hfs]
    · cases e : parseRowTag (pyStrip line) <;> simp [importStep, he, hc, e, hfs]
    · cases e : parseRowTag (pyStrip line) <;> simp [importStep, he, hc, e, hfs]

/-- C6 (witness): a stray closing tag under an established current
filename leaves the parser state untouched. -/
theorem import_skips_unrecognized_c6_witness :
    (parseRowTag (pyStrip "</a>".data) = none ∨
      (⟨[("a", [("1", "x")])], some "a"⟩ : ImportState).current_filename = none ∨
      (⟨[("a", [("1", "x")])], some "a"⟩ : ImportState).current_filename = some "") ∧
    importStep (⟨[("a", [("1", "x")])], some "a"⟩ : ImportState) "</a>".data =
      (⟨[("a", [("1", "x")])], some "a"⟩ : ImportState) :=
  ⟨Or.inl (by decide),
    import_skips_unrecognized_c6 (⟨[("a", [("1", "x")])], some "a"⟩ : ImportState)
      "</a>".data (Or.inl (by decide))
      (by
        intro nm hnm
        have hnone : parseFileTag (pyStrip "</a>".data) = none := by decide
        rw [hnone] at hnm
        exact Option.noConfusion hnm)⟩

set_option maxRecDepth 8000 in
/-- C1: round-trip through the exchange codec — importing the generated
full-document export of the two rows reproduces exactly the mapping
`p1.png` to the rows `1 → Hello, 2 → World` (row keys in ascending order). -/
theorem exchange_roundtrip_c1 :
    (generate_for_translate_content
        [⟨some "p1.png", some "1", "Hello", [], false⟩,
         ⟨some "p1.png", some "2", "World", [], false⟩] "Original").map
      import_translation_file_content =
      some [("p1.png", [("1", "Hello"), ("2", "World")])] := by decide

/-- C7: the input with no closing tags at all imports as
`file.png` to the single row `3 → Hi there`. -/
theorem tolerant_import_c7 :
    import_translation_file_content "<file.png>\n<3>Hi there" =
      [("file.png", [("3", "Hi there")])] := by decide

/-- C5 (code defect witness): a row whose `row_number` is missing is
not skipped by `load_from_results` — because the source applies `str`
before the falsiness check, the row is stored under the literal key
`None`; a row with a missing filename, by contrast, is skipped as the
spec requires. -/
theorem load_missing_row_number_c5 :
    load_from_results [⟨some "a.png", none, "t", []⟩] =
      (⟨[("Original", [("a.png", [("None", "t")])])], "Original"⟩ : PMState) ∧
    load_from_results [⟨none, some "1", "t", []⟩] =
      (⟨[("Original", [])], "Original"⟩ : PMState) := by decide

set_option maxRecDepth 16000 in
/-- C2 (counterexample): with `context_size = 1`, visible rows 1..5 and
rows 1, 2 and 4 selected, the generated re-translate document contains
exactly ONE `<re-translation>` block, not the two separate groups the
claim asserts: the grouping loop merges indices 0, 1 and 3 into a
single group because the context windows of index 1 ([0,2]) and index 3
([2,4]) overlap at index 2. -/
theorem retranslate_two_groups_c2_cex :
    proximityGroups 1 [0, 1, 3] = [[0, 1, 3]] ∧
    (proximityGroups 1 [0, 1, 3] ≠ [[0, 1], [3]]) ∧
    (generate_retranslate_content
        [⟨some "f.png", some "1", "A", [], false⟩,
         ⟨some "f.png", some "2", "B", [], false⟩,
         ⟨some "f.png", some "3", "C", [], false⟩,
         ⟨some "f.png", some "4", "D", [], false⟩,
         ⟨some "f.png", some "5", "E", [], false⟩] "Original"
        [("f.png", "1"), ("f.png", "2"), ("f.png", "4")] 1).map
      (fun c => countSub c.data "<re-translation>".data) = some 1 := by decide

set_option maxRecDepth 16000 in
/-- C2 (amended): with `context_size = 1`, visible rows 1..5 and rows
1, 2 and 4 selected, all three selected rows merge into a single
`<re-translation>` group whose window covers rows 1..5: rows 1, 2 and 4
carry their row tags and rows 3 and 5 appear as `<context>`. -/
theorem retranslate_single_group_c2 :
    generate_retranslate_content
        [⟨some "f.png", some "1", "A", [], false⟩,
         ⟨some "f.png", some "2", "B", [], false⟩,
         ⟨some "f.png", some "3", "C", [], false⟩,
         ⟨some "f.png", some "4", "D", [], false⟩,
         ⟨some "f.png", some "5", "E", [], false⟩] "Original"
        [("f.png", "1"), ("f.png", "2"), ("f.png", "4")] 1 =
      some ("<f.png>\n<re-translation>\n<1>A</1>\n<2>B</2>\n<context>C</context>\n" ++
        "<4>D</4>\n<context>E</context>\n</re-translation>\n</f.png>\n") := by decide

/-- C9: when the pipeline resized the image (`0 < resize_threshold <
original_width`), every detected polygon point is mapped back to
original-image space as the per-axis truncated scaling
`(int(x * ow / rw), int(y * oh / rh))` with `rw = resize_threshold` and
`rh = int(oh * rw / ow)`, and filtering (and hence the subsequent
grouping) runs on those rescaled results. -/
theorem rescale_after_downscale_c9 (rt ow oh : Nat) (minH maxH : Int) (minC : Rat)
    (raw : List RawDetection) (h1 : 0 < rt) (h2 : rt < ow) :
    ocrPipelineFiltered rt ow oh minH maxH minC raw =
      filterResults minH maxH minC (raw.map (fun r =>
        { coordinates := r.coordinates.map (specScalePoint ow oh rt (oh * rt / ow)),
          text := r.text, confidence := r.confidence })) := by
  have hdims : resizedDims rt ow oh = (rt, oh * rt / ow, true) := by
    rw [resizedDims, if_pos ⟨h1, h2⟩]
  have hfun : specScalePoint ow oh rt (oh * rt / ow) = fun p : Rat × Rat =>
      (pyInt (p.1 * ((ow : Rat) / (rt : Rat))),
       pyInt (p.2 * ((oh : Rat) / ((oh * rt / ow : Nat) : Rat)))) := by
    funext p
    simp [specScalePoint, mul_div_assoc]
  simp [ocrPipelineFiltered, hdims, scaleCoordinates, hfun]

/-- C9 (witness): a 200px-wide image downscaled to 100px with one
fractional-coordinate detection. -/
theorem rescale_after_downscale_c9_witness :
    0 < 100 ∧ (100 : Nat) < 200 ∧
    ocrPipelineFiltered 100 200 50 0 1000 0
        [⟨[((21 : Rat) / 2, (7 : Rat) / 3)], "t", 1⟩] =
      filterResults 0 1000 0
        ([(⟨[((21 : Rat) / 2, (7 : Rat) / 3)], "t", 1⟩ : RawDetection)].map (fun r =>
          { coordinates := r.coordinates.map (specScalePoint 200 50 100 (50 * 100 / 200)),
            text := r.text, confidence := r.confidence })) :=
  ⟨by decide, by decide,
    rescale_after_downscale_c9 100 200 50 0 1000 0
      [⟨[((21 : Rat) / 2, (7 : Rat) / 3)], "t", 1⟩] (by decide) (by decide)⟩

end EasyScanlate
